import Mathlib

set_option maxRecDepth 100000

/-!
# Verification of the code-buddy core

A shallow embedding of the streaming response accumulator
(`accumulator.Accumulator.Complete`), the embedded directive parser
(`interactive.parseCommand` and the `cmdParser` methods), the tool
command constructors of `interactive.Runner.Run`, and the
`ReplaceStringInFileArgs.Run` tool, translated from the Go sources.

Strings are modelled as Lean `String`s (sequences of characters); Go
indexes and slices strings by byte, which coincides with the character
view on the ASCII inputs used in all concrete statements below.
Package-level mutable state (the `commandPrefix` variable, which the Go
tests reassign) is modelled by passing the prefixy token as an explicit
argument `pfx` to every parser function.
-/

namespace CodeBuddy

/-! ## Go string primitives -/

/-- Go `strings.Split(s, sep)` for a single-character separator,
at the character-list level. `splitOnChar sep [] = [[]]` just as
`strings.Split("", sep) = [""]`. -/
def splitOnChar (sep : Char) : List Char → List (List Char)
  | [] => [[]]
  | c :: rest =>
    let r := splitOnChar sep rest
    if c = sep then
      [] :: r
    else
      match r with
      | g :: gs => (c :: g) :: gs
      | [] => [[c]]

/-- Go `strings.Split(s, ",")`. -/
def goSplitComma (s : String) : List String :=
  (splitOnChar ',' s.data).map String.mk

/-- Go `strings.Join(xs, sep)`. -/
def goJoin (sep : String) : List String → String
  | [] => ""
  | [x] => x
  | x :: xs => x ++ sep ++ goJoin sep xs

/-- Go `strings.HasPrefix(s, pat)`. -/
def goHasPfx (s pat : String) : Bool :=
  pat.data.isPrefixOf s.data

/-- The whitespace class of Go `unicode.IsSpace` restricted to Latin-1
(the full Go predicate also accepts higher Unicode space runes, which
never occur in the directive keywords being trimmed). -/
def goIsSpace (c : Char) : Bool :=
  c = ' ' || c = '\t' || c = '\n' || c = '\r' ||
    c.toNat = 11 || c.toNat = 12 || c.toNat = 0x85 || c.toNat = 0xA0

/-- Go `strings.TrimSpace`. -/
def goTrimSpace (s : String) : String :=
  String.mk (((s.data.dropWhile goIsSpace).reverse.dropWhile goIsSpace).reverse)

/-- Index of the first occurrence of `pat` in `t`, at the
character-list level; `none` models Go `strings.Index` returning -1. -/
def firstIdxSubL (t pat : List Char) : Option Nat :=
  match t with
  | [] => if pat.isEmpty then some 0 else none
  | _ :: rest =>
    if pat.isPrefixOf t then some 0
    else
      match firstIdxSubL rest pat with
      | none => none
      | some i => some (i + 1)

/-- Go `strings.Index(s, pat)` (byte index in Go, character index here;
identical on ASCII strings). -/
def goIndexSub (s pat : String) : Option Nat :=
  firstIdxSubL s.data pat.data

/-- Whether `pat` occurs as a substring of `s`. -/
def containsSub (s pat : String) : Bool :=
  (goIndexSub s pat).isSome

/-- Go slice `s[:n]` (byte slicing in Go, character slicing here). -/
def strTake (s : String) (n : Nat) : String :=
  String.mk (s.data.take n)

/-- Strip one trailing carriage return, as `bufio.ScanLines` does. -/
def dropCR (l : List Char) : List Char :=
  if l.getLast? = some '\r' then l.dropLast else l

/-- The sequence of lines a `bufio.Scanner` with the default
`ScanLines` split function yields for input `s`: tokens are separated
by `'\n'`, a final unterminated line is returned, a trailing newline
does not produce an extra empty token, and a trailing `'\r'` is
stripped from each line. -/
def scanLines (s : String) : List String :=
  match s.data with
  | [] => []
  | cs =>
    let groups := splitOnChar '\n' cs
    let groups := if cs.getLast? = some '\n' then groups.dropLast else groups
    groups.map (fun g => String.mk (dropCR g))

/-- Go `reverseString` from prompt.go: reverse the sequence of runes. -/
def reverseString (s : String) : String :=
  String.mk s.data.reverse

/-- The package-level `commandPrefix` variable of the interactive
package: `reverseString("function_call#")`. -/
def commandPrefix : String := reverseString "function_call#"

/-! ## The directive parser (`cmdParser`, part_009) -/

/-- `FunctionParameter` from interactive.go. -/
structure FunctionParameter where
  Name : String
  Value : String
  deriving Repr, DecidableEq

/-- `FunctionCall` from interactive.go. -/
structure FunctionCall where
  Name : String
  Parameters : List FunctionParameter
  deriving Repr, DecidableEq

/-- The errors the parser can produce: `io.EOF`, or a formatted
parse-error message (`fmt.Errorf`). -/
inductive PErr where
  | eof
  | fail (msg : String)
  deriving Repr, DecidableEq

/-- `cmdParser.consumeUntilPrefix`: scan lines until one starts with
the command token `pfx`; accumulate the free text seen on the way.
Returns (joined before-text, comma-split directive fields or error,
remaining lines). An exhausted scanner yields `io.EOF`; a directive
line with fewer than two comma fields yields a parse error. -/
def consumeUntilPrefix (pfx : String) : List String → List String →
    String × Except PErr (List String) × List String
  | [], before => (goJoin "\n" before, .error .eof, [])
  | line :: rest, before =>
    if goHasPfx line pfx then
      let parts := goSplitComma line
      if parts.length < 2 then
        (goJoin "\n" before, .error (.fail ("invalid function call line: " ++ line)), rest)
      else
        (goJoin "\n" before, .ok parts, rest)
    else
      consumeUntilPrefix pfx rest (before ++ [line])

/-- `cmdParser.consumeFuncCall`: expect a `<pfx>,function,<name>`
directive; the keyword and the name are trimmed of surrounding
whitespace. -/
def consumeFuncCall (pfx : String) (lines : List String) :
    Except PErr String × List String :=
  match consumeUntilPrefix pfx lines [] with
  | (_, .error e, rest) => (.error e, rest)
  | (_, .ok cmdParts, rest) =>
    let cmd := goTrimSpace (cmdParts.getD 1 "")
    if cmd ≠ "function" then
      (.error (.fail ("cmd parse err: expected function got " ++ cmd)), rest)
    else if cmdParts.length ≠ 3 then
      (.error (.fail ("cmd parse err: function call wrong shape " ++
        goJoin "," cmdParts ++ " != 3 parts")), rest)
    else
      (.ok (goTrimSpace (cmdParts.getD 2 "")), rest)

/-- `cmdParser.consumeParams`: the parameter loop. `fuel` bounds the
number of loop iterations; every iteration consumes at least the one
line holding the directive it examined, so `lines.length + 1` fuel is
always enough and the fuel-exhausted branch is unreachable from
`cmdParserParse`.

The `default` branch of the Go switch assigns
`c.err = fmt.Errorf("paramter parse err: ...")` but — unlike every
other error branch — does not return, and nothing ever reads `c.err`
afterwards, so the loop continues exactly as modelled here. -/
def consumeParams (pfx : String) : Nat → List String → List FunctionParameter →
    Except PErr (List FunctionParameter) × List String
  | 0, lines, _ => (.error .eof, lines)
  | fuel + 1, lines, params =>
    match consumeUntilPrefix pfx lines [] with
    | (_, .error e, rest) => (.error e, rest)
    | (preText, .ok cmdParts, rest) =>
      if preText ≠ "" then
        (.error (.fail ("got unexpected text within command: " ++ preText)), rest)
      else
        let cmd := cmdParts.getD 1 ""
        if cmd = "parameter" then
          if cmdParts.length ≠ 3 then
            (.error (.fail ("parameter parse err: wrong shape " ++
              goJoin "," cmdParts ++ " != 3 parts")), rest)
          else
            let paramName := cmdParts.getD 2 ""
            match consumeUntilPrefix pfx rest [] with
            | (_, .error e, rest2) => (.error e, rest2)
            | (paramBody, .ok cmdParts2, rest2) =>
              if cmdParts2.getD 1 "" ≠ "end_parameter" then
                (.error (.fail ("parameter parse err: parameter not terminated " ++
                  paramName ++ ": got=" ++ goJoin "," cmdParts2)), rest2)
              else
                consumeParams pfx fuel rest2 (params ++ [⟨paramName, paramBody⟩])
        else if cmd = "end_function" then
          (.ok params, rest)
        else
          consumeParams pfx fuel rest params

/-- `cmdParser.Parse`: a function header followed by the parameter
loop. -/
def cmdParserParse (pfx : String) (text : String) : Except PErr FunctionCall :=
  let lines := scanLines text
  match consumeFuncCall pfx lines with
  | (.error e, _) => .error e
  | (.ok funName, rest) =>
    match consumeParams pfx (rest.length + 1) rest [] with
    | (.error e, _) => .error e
    | (.ok params, _) => .ok ⟨funName, params⟩

/-- `parseCommand` from part_009: bail out with `io.EOF` (returning the
input text unchanged) unless the substring `<pfx>,end_function` occurs
somewhere in the text; otherwise run `cmdParser.Parse` and return the
text truncated just past that first occurrence with a
`\n<pfx>,invoke\n` marker appended (`fixedText`). -/
def parseCommand (pfx : String) (text : String) :
    Except PErr FunctionCall × String :=
  let funcEndTxt := pfx ++ ",end_function"
  match goIndexSub text funcEndTxt with
  | none => (.error .eof, text)
  | some endIdx =>
    let fc := cmdParserParse pfx text
    let fixedText := strTake text (endIdx + funcEndTxt.length) ++ "\n" ++ pfx ++ ",invoke\n"
    (fc, fixedText)

/-! ## The streaming response accumulator (`accumulator` package, part_004) -/

/-- `accumulator.ContentBlock`. -/
structure ContentBlock where
  Text : String
  Typ : String
  Idx : Int
  ToolName : String
  ToolID : String
  deriving Repr, DecidableEq

/-- The fields of `claude.MessageStart` that `Accumulator.Complete`
reads or writes: stop reason, stop sequence, output-token usage, and
the content list attached on return. -/
structure MessageStart where
  StopReason : String := ""
  StopSequence : String := ""
  OutputTokens : Int := 0
  Content : List ContentBlock := []
  deriving Repr, DecidableEq

/-- The typed events a message-stream response can carry, one
constructor per `case` of the switch in `Accumulator.Complete`.
The three error-like cases (`*claude.ClaudeError`, `*claude.ClientError`,
plain `error`) each return the event as the error. -/
inductive RespEvent where
  | ping
  | messageStart (meta : MessageStart)
  | contentBlockStart (index : Int) (typ : String) (text : String) (name : String) (id : String)
  | contentBlockDelta (text : String) (partialJson : String)
  | contentBlockStop
  | messageDelta (stopReason : String) (stopSequence : String) (outputTokens : Int)
  | messageStop
  | claudeError (msg : String)
  | clientError (msg : String)
  | otherError (msg : String)
  | unknownEvent (typeName : String)
  deriving Repr, DecidableEq

/-- The mutable locals of the `Complete` event loop. `sent` records the
fragments published on the side channel, in order. -/
structure AccState where
  contentBlocks : List ContentBlock
  contentType : String
  contentBuilder : String
  toolName : String
  toolID : String
  contentIdx : Int
  startMsg : MessageStart
  sent : List String
  deriving Repr, DecidableEq

/-- The initial loop state of `Complete` (`contentIdx = -1`, everything
else zero-valued). -/
def initAccState : AccState :=
  { contentBlocks := [], contentType := "", contentBuilder := "",
    toolName := "", toolID := "", contentIdx := -1, startMsg := {}, sent := [] }

/-- One iteration of the `for resp := range mr.Responses()` switch.
`hasChan` records whether a `contentBlockDeltaChan` option was given.
Note the source resets `contentType`, `contentIdx`, `contentBuilder`
and `toolName` on a block stop, but not `toolID`. -/
def accStep (hasChan : Bool) (st : AccState) (ev : RespEvent) : Except String AccState :=
  match ev with
  | .ping => .ok st
  | .messageStart m => .ok { st with startMsg := m }
  | .contentBlockStart idx typ txt nm id =>
    .ok { st with contentType := typ, contentIdx := idx, toolName := nm, toolID := id,
                  contentBuilder := st.contentBuilder ++ txt }
  | .contentBlockDelta t j =>
    .ok { st with contentBuilder := st.contentBuilder ++ t ++ j,
                  sent := st.sent ++ (if hasChan then [if t ≠ "" then t else j] else []) }
  | .contentBlockStop =>
    .ok { st with
          contentBlocks := st.contentBlocks ++
            [⟨st.contentBuilder, st.contentType, st.contentIdx, st.toolName, st.toolID⟩],
          contentType := "", contentIdx := -1, contentBuilder := "", toolName := "" }
  | .messageDelta sr ss out =>
    .ok { st with startMsg :=
          { st.startMsg with StopReason := sr, StopSequence := ss, OutputTokens := out } }
  | .messageStop => .ok st
  | .claudeError e => .error e
  | .clientError e => .error e
  | .otherError e => .error e
  | .unknownEvent t => .error ("unexpected message type: " ++ t)

/-- The event loop of `Complete`: fold `accStep` over the stream,
stopping at the first error return. -/
def accumLoop (hasChan : Bool) (st : AccState) : List RespEvent → Except String AccState
  | [] => .ok st
  | ev :: rest =>
    match accStep hasChan st ev with
    | .error e => .error e
    | .ok st2 => accumLoop hasChan st2 rest

/-- The body of `Complete` after the `defer close(...)` has been
registered: run the loop and, on normal stream end, return the start
message with the accumulated content blocks attached. -/
def CompleteBody (hasChan : Bool) (events : List RespEvent) : Except String MessageStart :=
  match accumLoop hasChan initAccState events with
  | .error e => .error e
  | .ok st => .ok { st.startMsg with Content := st.contentBlocks }

namespace Accumulator

/-- `Accumulator.Complete`. `reqResult = none` models the initial
`a.client.Message(ctx, req)` call failing, in which case `Complete`
returns that error before the complete-options are read and before the
`defer close(opts.contentBlockDeltaChan)` is registered; `some events`
models a successfully opened stream delivering `events`. The second
component counts how many times the side channel is closed: the
deferred close runs exactly once on every exit path reached after it
was registered, and it is registered only when a channel was
configured. -/
def Complete (reqResult : Option (List RespEvent)) (hasChan : Bool) :
    Except String MessageStart × Nat :=
  match reqResult with
  | none => (.error "client message error", 0)
  | some events => (CompleteBody hasChan events, if hasChan then 1 else 0)

end Accumulator

/-! ## Go `strings.Replace` and the replace_string_in_file tool -/

/-- The replacement scan of Go `strings.Replace` for a non-empty `old`:
walk the string left to right; while the remaining replacement budget
`n` is non-zero, replace each leftmost non-overlapping occurrence of
`old` by `new`. A negative budget never reaches zero, so it means
"no limit", exactly as in the source. `fuel` bounds the recursion;
every step consumes at least one character, so `s.length + 1` is
always enough. -/
def replaceAux (old new : List Char) : Nat → List Char → Int → List Char
  | 0, s, _ => s
  | fuel + 1, s, n =>
    if n = 0 then s
    else if old.isPrefixOf s ∧ old ≠ [] then
      new ++ replaceAux old new fuel (s.drop old.length) (n - 1)
    else
      match s with
      | [] => []
      | c :: rest => c :: replaceAux old new fuel rest n

/-- The empty-`old` case of Go `strings.Replace`: insert `new` at the
beginning and after each rune, up to the requested number of times
(Go clamps the request to rune count + 1, which the structural
recursion reproduces). -/
def replaceEmptyOld (new : List Char) : List Char → Int → List Char
  | s, n =>
    if n = 0 then s
    else
      new ++
        match s with
        | [] => []
        | c :: rest => c :: replaceEmptyOld new rest (n - 1)

/-- Go `strings.Replace(s, old, new, n)`. The source's `Count`-based
pre-scan and clamping of `n` are pure optimizations with no observable
effect and are not reproduced. -/
def goReplace (s old new : String) (n : Int) : String :=
  if old = new ∨ n = 0 then s
  else if old.data.isEmpty then
    String.mk (replaceEmptyOld new.data s.data n)
  else
    String.mk (replaceAux old.data new.data (s.data.length + 1) s.data n)

/-- `ReplaceStringInFileArgs` from commands.go. -/
structure ReplaceStringInFileArgs where
  Filename : String
  OriginalString : String
  NewString : String
  Count : Int
  deriving Repr, DecidableEq

namespace ReplaceStringInFileArgs

/-- `ReplaceStringInFileArgs.Run`, with the file system abstracted to
the file's current `content` (the `os.ReadFile` result); returns the
content written back by `os.WriteFile` and the success message. -/
def run (a : ReplaceStringInFileArgs) (content : String) : String × String :=
  (goReplace content a.OriginalString a.NewString a.Count,
   "File " ++ a.Filename ++ " has been modified successfully.")

end ReplaceStringInFileArgs

/-! ## The orchestrator's command derivation (`Runner.Run`, interactive.go) -/

/-- Split an optional leading sign off a numeral, as `strconv.ParseInt`
does: the flag is whether the numeral is negative. -/
def atoiSign (cs : List Char) : Bool × List Char :=
  match cs with
  | '-' :: rest => (true, rest)
  | '+' :: rest => (false, rest)
  | _ => (false, cs)

/-- The value of a list of decimal digit characters. -/
def digitsVal (digits : List Char) : Int :=
  digits.foldl (fun acc c => acc * 10 + (Int.ofNat (c.toNat - '0'.toNat))) 0

/-- Go `strconv.Atoi`: the parsed value and a success flag (`true`
exactly when Go returns a nil error). On a syntax error Go returns the
value 0; 64-bit range clamping is not modelled (no claim involves
values near the range limits). -/
def atoi (s : String) : Int × Bool :=
  match s.data with
  | [] => (0, false)
  | cs =>
    if ((atoiSign cs).2).isEmpty then (0, false)
    else if (atoiSign cs).2.all (fun c => '0' ≤ c && c ≤ '9') then
      (if (atoiSign cs).1 then -digitsVal (atoiSign cs).2 else digitsVal (atoiSign cs).2, true)
    else (0, false)

/-- The `paramMap` built in `Runner.Run`: a Go map written in parameter
order, so the last write wins; a missing key reads as `""`. -/
def lastParamValue (ps : List FunctionParameter) (name : String) : String :=
  (ps.foldl (fun acc p => if p.Name = name then some p.Value else acc) none).getD ""

/-- The `Cmd` variants `Runner.Run` can construct (the structs of
commands.go that implement the `Cmd` interface). -/
inductive Cmd where
  | listFilesArgs (pattern : String)
  | rgArgs (pattern : String) (directory : String)
  | catArgs (filename : String)
  | modifyFileArgs (filename : String) (content : String)
  | appendToFileArgs (filename : String) (content : String)
  | replaceStringInFileArgs (args : ReplaceStringInFileArgs)
  deriving Repr, DecidableEq

/-- One content block of a completed assistant turn as `Runner.Run`
reads it (`blk.Type()`, `blk.Text`, and `blk.ToolName` for the
unknown-tool error message). -/
structure Block where
  Typ : String
  Text : String
  ToolName : String
  deriving Repr, DecidableEq

/-- The `switch functionCall.Name` of `Runner.Run`: build the `Cmd`
for a parsed call. The `count` conversion error of `strconv.Atoi` is
discarded (`count, _ := strconv.Atoi(...)`). An unrecognized name is
the fatal "unknown tool" error (whose message interpolates
`blk.ToolName`, not the parsed name). -/
def buildCmd (blkToolName : String) (fc : FunctionCall) : Except String Cmd :=
  let pm := lastParamValue fc.Parameters
  match fc.Name with
  | "list_files" => .ok (.listFilesArgs (pm "pattern"))
  | "rg" => .ok (.rgArgs (pm "pattern") (pm "directory"))
  | "cat" => .ok (.catArgs (pm "filename"))
  | "write_file" => .ok (.modifyFileArgs (pm "filename") (pm "content"))
  | "append_to_file" => .ok (.appendToFileArgs (pm "filename") (pm "content"))
  | "replace_string_in_file" =>
    .ok (.replaceStringInFileArgs
      ⟨pm "filename", pm "original_string", pm "new_string", (atoi (pm "count")).1⟩)
  | _ => .error ("unknown tool " ++ blkToolName)

/-- The `for _, content := range respMeta.Content` loop of
`Runner.Run`, restricted to the evolution of the single `var cmd Cmd`
variable: non-text blocks are skipped; a text block whose parse ends
in `io.EOF` is skipped; any other parse error, or an unknown tool
name, aborts the whole run; a successfully parsed and recognized call
overwrites `cmd`. -/
def deriveCmdLoop (pfx : String) : List Block → Option Cmd → Except String (Option Cmd)
  | [], cmd => .ok cmd
  | b :: rest, cmd =>
    if b.Typ ≠ "text" then
      deriveCmdLoop pfx rest cmd
    else
      match parseCommand pfx b.Text with
      | (.error .eof, _) => deriveCmdLoop pfx rest cmd
      | (.error (.fail e), _) => .error e
      | (.ok fc, _) =>
        match buildCmd b.ToolName fc with
        | .error e => .error e
        | .ok c => deriveCmdLoop pfx rest (some c)

/-- The tool invocation a completed assistant turn gives rise to:
the final value of `cmd` after the block loop (started at `nil`). -/
def deriveCmd (pfx : String) (blocks : List Block) : Except String (Option Cmd) :=
  deriveCmdLoop pfx blocks none

/-- The commands successfully parsed out of a turn's text blocks, in
block order (specification-side view used to state the
last-one-governs property). -/
def turnCmds (pfx : String) (blocks : List Block) : List Cmd :=
  blocks.filterMap (fun b =>
    if b.Typ = "text" then
      match parseCommand pfx b.Text with
      | (.ok fc, _) => (buildCmd b.ToolName fc).toOption
      | (.error _, _) => none
    else none)

/-! ## The orchestrator's tool-result handling (`Runner.Run`, interactive.go) -/

/-- Decimal rendering of an integer, as Go `fmt` `%d`. -/
def natDigits : Nat → Nat → List Char
  | 0, _ => []
  | fuel + 1, n =>
    if n < 10 then [Char.ofNat ('0'.toNat + n)]
    else natDigits fuel (n / 10) ++ [Char.ofNat ('0'.toNat + n % 10)]

/-- Go `%d` formatting of an int. -/
def itoa (i : Int) : String :=
  if i < 0 then "-" ++ String.mk (natDigits i.natAbs i.natAbs)
  else String.mk (natDigits (i.natAbs + 1) i.natAbs)

/-- The `<function_result>` envelope template of `Runner.Run`. -/
def functionResultEnvelope (stdout stderr : String) (exitCode : Int) : String :=
  "<function_result>\n<stdout>" ++ stdout ++ "</stdout>\n<stderr>" ++ stderr ++
    "</stderr>\n<exit_code>" ++ itoa exitCode ++ "</exit_code>\n</function_result>"

/-- One conversation turn as the orchestrator appends it. -/
structure Turn where
  role : String
  text : String
  deriving Repr, DecidableEq

/-- The tail of the confirmed-command branch of `Runner.Run` (lines
368–396): run the tool; on error set `stderr` to the error text and
`errorCode` to 1; append the function-result envelope as a user turn;
set `moreWork = true` so the request loop issues another model request.
`runResult` is the `(cmdOut, err)` pair returned by `cmd.Run()`. -/
def afterToolRun (turns : List Turn) (runResult : String × Option String) :
    List Turn × Bool :=
  let cmdOut := runResult.1
  let stderr := match runResult.2 with | none => "" | some e => e
  let errorCode : Int := match runResult.2 with | none => 0 | some _ => 1
  (turns ++ [⟨"user", functionResultEnvelope cmdOut stderr errorCode⟩], true)

/-! ## Specification-side helper definitions -/

/-- The delta events for an ordered list of (text, partial-JSON)
fragment pairs. -/
def deltaEvents (ds : List (String × String)) : List RespEvent :=
  ds.map (fun p => .contentBlockDelta p.1 p.2)

/-- The ordered concatenation of the fragments of a list of delta
events (within one delta the text fragment precedes the partial-JSON
fragment, as the two `contentBuilder.Write` calls do). -/
def concatFrags : List (String × String) → String
  | [] => ""
  | p :: ps => p.1 ++ p.2 ++ concatFrags ps

/-- The fragment records published on the side channel for a list of
delta events (the literal text, or the partial JSON when the text is
empty). -/
def sentFrags : List (String × String) → List String
  | [] => []
  | p :: ps => (if p.1 ≠ "" then p.1 else p.2) :: sentFrags ps

/-- Whether a well-formed `end_function` directive line is present in
`text`: a line starting with the command token whose second
comma-separated field is `end_function`. -/
def hasEndFunctionDirective (pfx : String) (text : String) : Bool :=
  (scanLines text).any (fun l => goHasPfx l pfx && (goSplitComma l).getD 1 "" == "end_function")

/-- The scenario input of §8: a complete `cat` directive under the
token `#P`. -/
def sampleCatDirective : String :=
  "#P,function,cat\n#P,parameter,filename\nfoo.txt\n#P,end_parameter\n#P,end_function"

/-- The `FunctionCall` the scenario input parses to. -/
def sampleCatCall : FunctionCall := ⟨"cat", [⟨"filename", "foo.txt"⟩]⟩

/-- The second return value `parseCommand` produces for the scenario
input: the input itself with the `#P,invoke` marker line appended. -/
def sampleCatFixed : String := sampleCatDirective ++ "\n#P,invoke\n"

/-- Two text blocks, each carrying a complete directive for a
different file. -/
def twoDirectiveBlocks : List Block :=
  [⟨"text", "#P,function,cat\n#P,parameter,filename\na.txt\n#P,end_parameter\n#P,end_function", ""⟩,
   ⟨"text", "#P,function,cat\n#P,parameter,filename\nb.txt\n#P,end_parameter\n#P,end_function", ""⟩]

/-- A parameter list for `replace_string_in_file` that carries no
`count` parameter. -/
def countlessParams : List FunctionParameter :=
  [⟨"filename", "f.txt"⟩, ⟨"original_string", "a"⟩, ⟨"new_string", "b"⟩]

end CodeBuddy

/-! ## Helper lemmas -/

namespace CodeBuddy

lemma accumLoop_append (hasChan : Bool) (l1 l2 : List RespEvent) :
    ∀ st, accumLoop hasChan st (l1 ++ l2) =
      match accumLoop hasChan st l1 with
      | .error e => .error e
      | .ok st2 => accumLoop hasChan st2 l2 := by
  induction l1 with
  | nil => intro st; simp [accumLoop]
  | cons ev rest ih =>
    intro st
    simp only [List.cons_append, accumLoop]
    cases accStep hasChan st ev <;> simp [ih]

lemma accumLoop_deltas (hasChan : Bool) :
    ∀ (ds : List (String × String)) (st : AccState),
      accumLoop hasChan st (deltaEvents ds) =
        .ok { st with contentBuilder := st.contentBuilder ++ concatFrags ds,
                      sent := st.sent ++ (if hasChan then sentFrags ds else []) } := by
  intro ds
  induction ds with
  | nil =>
    intro st
    cases st
    simp [deltaEvents, accumLoop, concatFrags, sentFrags, String.append_empty]
  | cons p ps ih =>
    intro st
    simp only [deltaEvents, List.map_cons, accumLoop, accStep]
    rw [show (List.map (fun p => RespEvent.contentBlockDelta p.1 p.2) ps) = deltaEvents ps from rfl,
      ih]
    cases hasChan <;> simp [concatFrags, sentFrags, String.append_assoc]

lemma atoi_fst_eq_zero {s : String} (h : (atoi s).2 = false) : (atoi s).1 = 0 := by
  revert h
  unfold atoi
  generalize s.data = cs
  cases cs with
  | nil => intro h; rfl
  | cons c rest =>
    intro h
    by_cases h1 : ((atoiSign (c :: rest)).2).isEmpty
    · simp [h1]
    · by_cases h2 : (atoiSign (c :: rest)).2.all (fun c => '0' ≤ c && c ≤ '9')
      · simp [h1, h2] at h
      · simp [h1, h2]

lemma deriveCmdLoop_last (pfx : String) :
    ∀ (blocks : List Block) (acc r : Option Cmd),
      deriveCmdLoop pfx blocks acc = .ok r →
      r = ((turnCmds pfx blocks).getLast?).or acc := by
  intro blocks
  induction blocks with
  | nil =>
    intro acc r h
    simp [deriveCmdLoop] at h
    simp [turnCmds, h]
  | cons b rest ih =>
    intro acc r h
    by_cases hb : b.Typ = "text"
    · rcases hp : parseCommand pfx b.Text with ⟨res, fx⟩
      rcases res with e | fc
      · rcases e with _ | msg
        · rw [deriveCmdLoop, if_neg (by simp [hb]), hp] at h
          have ht : turnCmds pfx (b :: rest) = turnCmds pfx rest := by
            simp [turnCmds, List.filterMap_cons, hb, hp]
          rw [ht]
          exact ih acc r h
        · rw [deriveCmdLoop, if_neg (by simp [hb]), hp] at h
          cases h
      · rcases hbc : buildCmd b.ToolName fc with e | c
        · rw [deriveCmdLoop, if_neg (by simp [hb]), hp] at h
          dsimp only at h
          rw [hbc] at h
          cases h
        · rw [deriveCmdLoop, if_neg (by simp [hb]), hp] at h
          dsimp only at h
          rw [hbc] at h
          have hr := ih (some c) r h
          have ht : turnCmds pfx (b :: rest) = c :: turnCmds pfx rest := by
            simp [turnCmds, List.filterMap_cons, hb, hp, hbc, Except.toOption]
          rw [hr, ht, List.getLast?_cons]
          cases (turnCmds pfx rest).getLast? <;> simp [Option.or]
    · rw [deriveCmdLoop, if_pos (by simp [hb])] at h
      have ht : turnCmds pfx (b :: rest) = turnCmds pfx rest := by
        simp [turnCmds, List.filterMap_cons, hb]
      rw [ht]
      exact ih acc r h

end CodeBuddy

/-! ## Claim theorems -/

namespace CodeBuddy

/-- C1: for every event sequence delivered for one content block — a
content-block-start event carrying inline text `t0`, any number of
content-block-delta events each carrying a text and/or partial-JSON
fragment, and a content-block-stop event — the `Text` of the finalized
`ContentBlock` produced by `Accumulator.Complete` is exactly `t0`
followed by every delta fragment in arrival order (within one delta,
text before partial JSON); no fragment is dropped, duplicated or
reordered. -/
theorem C1_accumulated_text_is_ordered_concat
    (hasChan : Bool) (idx : Int) (typ t0 nm id : String) (ds : List (String × String)) :
    Accumulator.Complete
        (some (.contentBlockStart idx typ t0 nm id :: (deltaEvents ds ++ [.contentBlockStop])))
        hasChan
      = (.ok { StopReason := "", StopSequence := "", OutputTokens := 0,
               Content := [⟨t0 ++ concatFrags ds, typ, idx, nm, id⟩] },
         if hasChan then 1 else 0) := by
  unfold Accumulator.Complete CompleteBody
  simp only [accumLoop, accStep, initAccState]
  rw [accumLoop_append, accumLoop_deltas]
  simp only [accumLoop, accStep]
  simp [String.empty_append]

/-- C2 is false as stated: when the initial request that opens the
event stream fails, `Complete` returns before the channel-closing
release is registered, so a configured side channel is not closed at
all on that exit path (close count 0, not 1). -/
theorem C2_counterexample_initial_request_failure :
    (Accumulator.Complete none true).2 = 0 ∧ (Accumulator.Complete none true).2 ≠ 1 :=
  ⟨rfl, by decide⟩

/-- C2 (amended): for every `Complete` call configured with a
side-channel whose initial request succeeds, the channel is closed
exactly once whatever the stream delivers (normal end, error-typed
event, unrecognized event type); without a configured channel nothing
is closed; and when the initial request fails the channel is never
closed. -/
theorem C2_amended_channel_closed_once_after_open :
    (∀ events : List RespEvent, (Accumulator.Complete (some events) true).2 = 1) ∧
    (∀ reqResult : Option (List RespEvent), (Accumulator.Complete reqResult false).2 = 0) ∧
    (Accumulator.Complete none true).2 = 0 := by
  refine ⟨fun events => rfl, fun reqResult => ?_, rfl⟩
  cases reqResult <;> rfl

/-- C3 is false as stated: on the §8 scenario input the second return
value of `parseCommand` is not the plain free text that preceded the
directive (which is empty here) — it still contains the full directive
plus an appended invoke marker line, and running `parseCommand` on it
yields the very same `FunctionCall` again. -/
theorem C3_counterexample_reparse_rediscovers_call :
    parseCommand "#P" sampleCatDirective = (.ok sampleCatCall, sampleCatFixed) ∧
    parseCommand "#P" sampleCatFixed = (.ok sampleCatCall, sampleCatFixed) ∧
    sampleCatFixed ≠ "" ∧
    hasEndFunctionDirective "#P" sampleCatFixed = true :=
  ⟨rfl, rfl, by decide, rfl⟩

/-- C3 (amended): whenever `parseCommand` finds the end_function
marker, its second return value is the input truncated just past the
first occurrence of the marker with a newline and an invoke directive
line appended — not the directive-free leading text — and re-running
`parseCommand` on that returned text can rediscover the same
`FunctionCall` (it does on the scenario input's fixed text, a fixed
point of the transformation). -/
theorem C3_amended_fixed_text_shape :
    (∀ (pfx text : String) (i : Nat),
        goIndexSub text (pfx ++ ",end_function") = some i →
        (parseCommand pfx text).2 =
          strTake text (i + (pfx ++ ",end_function").length) ++ "\n" ++ pfx ++ ",invoke\n") ∧
    parseCommand "#P" sampleCatFixed = (.ok sampleCatCall, sampleCatFixed) := by
  refine ⟨?_, rfl⟩
  intro pfx text i h
  simp [parseCommand, h]

/-- Witness for C3 (amended) at a concrete input. -/
theorem C3_amended_fixed_text_shape_witness :
    goIndexSub "#P,end_function" ("#P" ++ ",end_function") = some 0 ∧
    (parseCommand "#P" "#P,end_function").2 =
      strTake "#P,end_function" (0 + ("#P" ++ ",end_function").length) ++ "\n" ++ "#P" ++ ",invoke\n" :=
  ⟨rfl, C3_amended_fixed_text_shape.1 "#P" "#P,end_function" 0 rfl⟩

/-- C4 is false as stated: an input in which the end_function marker
occurs only mid-line — so no well-formed end_function directive line
is present — still enters the parse path; `parseCommand` does fail
with the end-of-input condition, but it returns the truncated text
with the invoke marker appended, not the input text. -/
theorem C4_counterexample_marker_substring_midline :
    hasEndFunctionDirective "#P" "a#P,end_function" = false ∧
    parseCommand "#P" "a#P,end_function" = (.error .eof, "a#P,end_function\n#P,invoke\n") ∧
    "a#P,end_function\n#P,invoke\n" ≠ "a#P,end_function" :=
  ⟨rfl, rfl, by decide⟩

/-- C4 (amended): for every input text in which the end_function
marker substring (the command token followed by `,end_function`) does
not occur at all, `parseCommand` fails with the end-of-input condition
and returns the input text unchanged; in particular a lone
function-opening directive yields end-of-input, while a parameter
directive line with fewer than 3 comma fields (in a text containing
the marker) yields a syntax error — a distinct outcome. -/
theorem C4_amended_eof_vs_syntax :
    (∀ pfx text : String, containsSub text (pfx ++ ",end_function") = false →
        parseCommand pfx text = (.error .eof, text)) ∧
    parseCommand "#P" "#P,function,cat" = (.error .eof, "#P,function,cat") ∧
    (parseCommand "#P" "#P,function,cat\n#P,parameter\nfoo\n#P,end_parameter\n#P,end_function").1
      = .error (.fail "parameter parse err: wrong shape #P,parameter != 3 parts") := by
  refine ⟨?_, rfl, rfl⟩
  intro pfx text h
  rcases hq : goIndexSub text (pfx ++ ",end_function") with _ | i
  · simp [parseCommand, hq]
  · simp [containsSub, hq] at h

/-- Witness for C4 (amended) at a concrete input. -/
theorem C4_amended_eof_vs_syntax_witness :
    containsSub "hello world" ("#P" ++ ",end_function") = false ∧
    parseCommand "#P" "hello world" = (.error .eof, "hello world") :=
  ⟨rfl, C4_amended_eof_vs_syntax.1 "#P" "hello world" rfl⟩

/-- C5: the claim states a parse error, but evaluating the code shows
otherwise — a directive line whose keyword is neither `parameter` nor
`end_function` appearing where one is expected is silently skipped,
and the `FunctionCall` is returned with a nil error, because the
`default` branch of `consumeParams` records the error without
returning it and nothing reads it afterwards. -/
theorem C5_code_bug_unexpected_directive_skipped :
    parseCommand "#P" "#P,function,f\n#P,bogus\n#P,end_function" =
      (.ok ⟨"f", []⟩, "#P,function,f\n#P,bogus\n#P,end_function\n#P,invoke\n") := rfl

/-- C6: per completed assistant turn the orchestrator derives at most
one tool invocation from all text-typed content blocks combined (the
result is one optional `Cmd`), and it is exactly the one built from
the last successfully parsed directive across the turn's blocks. -/
theorem C6_last_parsed_directive_governs
    (pfx : String) (blocks : List Block) (r : Option Cmd)
    (h : deriveCmd pfx blocks = .ok r) :
    r = (turnCmds pfx blocks).getLast? := by
  have := deriveCmdLoop_last pfx blocks none r h
  simpa using this

/-- Witness for C6 on a turn with two directive-bearing text blocks:
the derived command is the second (last) one. -/
theorem C6_last_parsed_directive_governs_witness :
    (some (Cmd.catArgs "b.txt") : Option Cmd) = (turnCmds "#P" twoDirectiveBlocks).getLast? :=
  C6_last_parsed_directive_governs "#P" twoDirectiveBlocks (some (Cmd.catArgs "b.txt")) (by rfl)

/-- C7: the §8 scenario — with directive token `#P`, the given input
parses to `FunctionCall` `cat` with the single parameter
`filename = "foo.txt"`. -/
theorem C7_cat_scenario_parses :
    parseCommand "#P"
        "#P,function,cat\n#P,parameter,filename\nfoo.txt\n#P,end_parameter\n#P,end_function"
      = (.ok ⟨"cat", [⟨"filename", "foo.txt"⟩]⟩,
         "#P,function,cat\n#P,parameter,filename\nfoo.txt\n#P,end_parameter\n#P,end_function\n#P,invoke\n") :=
  rfl

/-- C8: a `ReplaceString` invocation with original `"a"`, replacement
`"b"` and count `-1` rewrites file content `"aaa"` to `"bbb"` with a
success message; the same invocation with count `1` rewrites it to
`"baa"` (first-n non-overlapping occurrences). -/
theorem C8_replace_string_scenario :
    ReplaceStringInFileArgs.run ⟨"f.txt", "a", "b", -1⟩ "aaa"
      = ("bbb", "File f.txt has been modified successfully.") ∧
    ReplaceStringInFileArgs.run ⟨"f.txt", "a", "b", 1⟩ "aaa"
      = ("baa", "File f.txt has been modified successfully.") :=
  ⟨rfl, rfl⟩

/-- C9: when a confirmed tool execution returns an error, the
orchestrator still appends a user-role turn whose text is the
function-result envelope carrying the non-zero exit code 1 and the
error text in the stderr field, and sets `moreWork = true` so the
request loop issues another model request instead of ending the
session. -/
theorem C9_tool_error_appends_result_and_continues
    (turns : List Turn) (cmdOut errText : String) :
    afterToolRun turns (cmdOut, some errText) =
      (turns ++ [⟨"user",
        "<function_result>\n<stdout>" ++ cmdOut ++ "</stdout>\n<stderr>" ++ errText ++
          "</stderr>\n<exit_code>1</exit_code>\n</function_result>"⟩], true) := by
  unfold afterToolRun functionResultEnvelope
  dsimp only
  rw [show itoa 1 = "1" from rfl]
  simp only [String.append_assoc]
  rw [show ("</stderr>\n<exit_code>" : String) ++ ("1" ++ "</exit_code>\n</function_result>")
        = "</stderr>\n<exit_code>1</exit_code>\n</function_result>" from rfl]

/-- C10: a parsed `replace_string_in_file` directive whose `count`
parameter is absent or not a syntactically valid integer is not
rejected — the conversion error is discarded and the invocation is
built with `Count = 0` — and executing it performs zero replacements,
writing the file content back unchanged while still returning the
success message. -/
theorem C10_invalid_count_defaults_to_zero
    (blkToolName : String) (ps : List FunctionParameter) (content : String)
    (h : (atoi (lastParamValue ps "count")).2 = false) :
    buildCmd blkToolName ⟨"replace_string_in_file", ps⟩ =
      .ok (.replaceStringInFileArgs
        ⟨lastParamValue ps "filename", lastParamValue ps "original_string",
         lastParamValue ps "new_string", 0⟩) ∧
    ReplaceStringInFileArgs.run
        ⟨lastParamValue ps "filename", lastParamValue ps "original_string",
         lastParamValue ps "new_string", 0⟩ content
      = (content, "File " ++ lastParamValue ps "filename" ++ " has been modified successfully.") := by
  constructor
  · unfold buildCmd
    dsimp only
    rw [atoi_fst_eq_zero h]
    rfl
  · simp [ReplaceStringInFileArgs.run, goReplace]

/-- Witness for C10 on a parameter list with no `count` parameter. -/
theorem C10_invalid_count_defaults_to_zero_witness :
    (atoi (lastParamValue countlessParams "count")).2 = false ∧
    (buildCmd "" ⟨"replace_string_in_file", countlessParams⟩ =
      .ok (.replaceStringInFileArgs
        ⟨lastParamValue countlessParams "filename", lastParamValue countlessParams "original_string",
         lastParamValue countlessParams "new_string", 0⟩) ∧
     ReplaceStringInFileArgs.run
        ⟨lastParamValue countlessParams "filename", lastParamValue countlessParams "original_string",
         lastParamValue countlessParams "new_string", 0⟩ "aaa"
      = ("aaa", "File " ++ lastParamValue countlessParams "filename" ++
          " has been modified successfully.")) :=
  ⟨rfl, C10_invalid_count_defaults_to_zero "" countlessParams "aaa" rfl⟩

